import Mathlib

/- Formal model of nemo/collections/asr/parts/perturb.py: the audio
   perturbation pipeline, noise mixing, and sharded augmentation streaming.
   Waveform samples are modelled as lists of rationals; every random draw a
   perturbation makes is passed in explicitly as an oracle argument, so each
   definition is a pure function of its inputs and its draws. -/

/-- Python round as used by int(round(x)): round half to even. -/
def pyRound (q : ℚ) : ℤ :=
  let f : ℤ := ⌊q⌋
  let r := q - (f : ℚ)
  if r < 1/2 then f
  else if 1/2 < r then f + 1
  else if f % 2 = 0 then f else f + 1

/-- Modelled from the spec: AudioSegment (nemo/collections/asr/parts/segment.py,
    a collaborator module not among the sources here) holds the mutable sample
    buffer plus its sample rate; duration equals sample count over sample rate.
    The rms-db computation of AudioSegment is likewise outside the sources, so
    the functions below take an abstract rms-db function as a parameter. -/
structure AudioData where
  samples : List ℚ
  sampleRate : ℕ
  deriving DecidableEq

/-- Modelled from the spec: duration = len(samples) / sample_rate. -/
def AudioData.duration (a : AudioData) : ℚ :=
  (a.samples.length : ℚ) / (a.sampleRate : ℚ)

/-- AugmentationDataset.__init__ (perturb.py lines 520-523): distributed worker
    globalRank is assigned, for each i < nTarsPerWorker, the shard at index
    (globalRank * nTarsPerWorker + i) % numShards of the expanded shard list. -/
def shardAssign (numShards nTarsPerWorker globalRank : ℕ) : List ℕ :=
  (List.range nTarsPerWorker).map
    (fun i => (globalRank * nTarsPerWorker + i) % numShards)

/-- C2 counterexample: with S = 3 shards, W = 2 workers and k = 1 shard per
    worker, the hypothesis S ≥ W·k of the claim holds, yet shard 2 belongs to
    no worker's assignment: the union of the workers' assignments does not
    cover the shard set, refuting the coverage part of the claim. -/
theorem shardAssign_cover_counterexample :
    3 ≥ 2 * 1 ∧ (2 : ℕ) ∉ shardAssign 3 1 0 ∧ (2 : ℕ) ∉ shardAssign 3 1 1 := by
  decide

/-- C2 (amended): for W workers, S shards and k shards per worker with
    0 < S ≤ W·k, every worker receives exactly k shard identifiers, the union
    of all workers' assignments covers the whole shard set, and when
    S = W·k exactly (no modular wrap-around) the workers' assignments are
    pairwise disjoint, so overlap can only arise through wrap-around. -/
theorem shardAssign_partition_amended (S W k : ℕ) (hS : 0 < S) (hcov : S ≤ W * k) :
    (∀ r, (shardAssign S k r).length = k) ∧
    (∀ s, s < S → ∃ r, r < W ∧ s ∈ shardAssign S k r) ∧
    (S = W * k → ∀ r q, r < W → q < W → r ≠ q →
      ∀ x, x ∈ shardAssign S k r → x ∉ shardAssign S k q) := by
  have hk : 0 < k := by
    rcases Nat.eq_zero_or_pos k with hk0 | hk0
    · subst hk0; omega
    · exact hk0
  refine ⟨?_, ?_, ?_⟩
  · intro r
    simp [shardAssign]
  · intro s hs
    refine ⟨s / k, ?_, ?_⟩
    · exact (Nat.div_lt_iff_lt_mul hk).mpr (lt_of_lt_of_le hs (by omega))
    · have hmem : s % k ∈ List.range k := List.mem_range.mpr (Nat.mod_lt _ hk)
      have hval : (s / k * k + s % k) % S = s := by
        have hrw : s / k * k + s % k = s := by
          rw [Nat.mul_comm]; exact Nat.div_add_mod s k
        rw [hrw]
        exact Nat.mod_eq_of_lt hs
      exact List.mem_map.mpr ⟨s % k, hmem, hval⟩
  · intro hSeq r q hr hq hne x hxr hxq
    rcases List.mem_map.mp hxr with ⟨i, hi, hix⟩
    rcases List.mem_map.mp hxq with ⟨j, hj, hjx⟩
    have hi' : i < k := List.mem_range.mp hi
    have hj' : j < k := List.mem_range.mp hj
    have hrlt : r * k + i < S := by
      have : r * k + i < W * k := by
        calc r * k + i < r * k + k := by omega
        _ = (r + 1) * k := by ring
        _ ≤ W * k := Nat.mul_le_mul_right k (by omega)
      omega
    have hqlt : q * k + j < S := by
      have : q * k + j < W * k := by
        calc q * k + j < q * k + k := by omega
        _ = (q + 1) * k := by ring
        _ ≤ W * k := Nat.mul_le_mul_right k (by omega)
      omega
    have hix' : r * k + i = x := by
      rw [← hix]; exact (Nat.mod_eq_of_lt hrlt).symm
    have hjx' : q * k + j = x := by
      rw [← hjx]; exact (Nat.mod_eq_of_lt hqlt).symm
    have : r = q := by
      have hx1 : x / k = r := by
        rw [← hix', Nat.mul_comm r k, Nat.mul_add_div hk, Nat.div_eq_of_lt hi']
        omega
      have hx2 : x / k = q := by
        rw [← hjx', Nat.mul_comm q k, Nat.mul_add_div hk, Nat.div_eq_of_lt hj']
        omega
      omega
    exact hne this

/-- C2 witness: the amended partition theorem applied at S = 3, W = 2, k = 2. -/
theorem shardAssign_partition_witness :
    (∀ r, (shardAssign 3 2 r).length = 2) ∧
    (∀ s, s < 3 → ∃ r, r < 2 ∧ s ∈ shardAssign 3 2 r) ∧
    (3 = 2 * 2 → ∀ r q, r < 2 → q < 2 → r ≠ q →
      ∀ x, x ∈ shardAssign 3 2 r → x ∉ shardAssign 3 2 q) :=
  shardAssign_partition_amended 3 2 2 (by decide) (by decide)

/-- Helper for np.argmax: index of the first maximum over the remaining list,
    tracking the best value and its index; the strict comparison keeps the
    first occurrence, matching numpy. -/
def npArgmaxAux (best : ℚ) (bestIdx idx : ℕ) : List ℚ → ℕ
  | [] => bestIdx
  | x :: rest =>
    if best < x then npArgmaxAux x idx (idx + 1) rest
    else npArgmaxAux best bestIdx (idx + 1) rest

/-- np.argmax over a sample list: index of the first occurrence of the maximum
    (0 for the empty list, where numpy would raise instead). -/
def npArgmax : List ℚ → ℕ
  | [] => 0
  | x :: rest => npArgmaxAux x 0 1 rest

/-- Coefficient k of the full linear convolution: the sum of xs i * ys (k - i)
    over i from 0 to k, out-of-range entries reading as 0. -/
def convCoeff (xs ys : List ℚ) (k : ℕ) : ℚ :=
  ((List.range (k + 1)).map (fun i => xs.getD i 0 * ys.getD (k - i) 0)).sum

/-- scipy.signal.fftconvolve(xs, ys, "full"), exactly (the floating-point FFT
    round-off is out of scope): the full linear convolution, with
    len(xs) + len(ys) - 1 output samples. -/
def fullConvolve (xs ys : List ℚ) : List ℚ :=
  (List.range (xs.length + ys.length - 1)).map (convCoeff xs ys)

/-- Python slice l[:-d]: everything but the last d elements; empty when d = 0
    (since l[:-0] is l[:0]) or when d is at least the length. -/
def pyNegSlice (l : List ℚ) (d : ℕ) : List ℚ :=
  if d = 0 then [] else l.take (l.length - d)

/-- ImpulsePerturbation.perturb (perturb.py lines 259-263) acting on the sample
    buffer, the impulse drawn from the noise source being an argument:
    impulse_resp = impulse[np.argmax(impulse):], delay_after = len(impulse_resp),
    samples = fftconvolve(samples, impulse_resp, "full")[:-delay_after]. -/
def impulsePerturb (dataSamples impulse : List ℚ) : List ℚ :=
  pyNegSlice (fullConvolve dataSamples (impulse.drop (npArgmax impulse)))
    (impulse.drop (npArgmax impulse)).length

theorem npArgmaxAux_lt (l : List ℚ) : ∀ best bestIdx idx, bestIdx < idx →
    npArgmaxAux best bestIdx idx l < idx + l.length := by
  induction l with
  | nil =>
    intro best bestIdx idx h
    simpa [npArgmaxAux] using h
  | cons x rest ih =>
    intro best bestIdx idx h
    simp only [npArgmaxAux, List.length_cons]
    split
    · have := ih x idx (idx + 1) (Nat.lt_succ_self idx)
      omega
    · have := ih best bestIdx (idx + 1) (by omega)
      omega

theorem npArgmax_lt (l : List ℚ) (h : l ≠ []) : npArgmax l < l.length := by
  cases l with
  | nil => exact absurd rfl h
  | cons x rest =>
    simp only [npArgmax, List.length_cons]
    have := npArgmaxAux_lt rest x 0 1 (by omega)
    omega

/-- C1 counterexample: a 4-sample buffer convolved with the single-sample
    impulse [5] (an impulse response shorter than the buffer, peak-trimmed to
    itself) comes out with 3 samples, not 4: the perturbed buffer's length is
    not the input buffer's length. -/
theorem impulsePerturb_length_counterexample :
    ([5] : List ℚ).length < ([1, 2, 3, 4] : List ℚ).length ∧
    (impulsePerturb [1, 2, 3, 4] [5]).length ≠ ([1, 2, 3, 4] : List ℚ).length := by
  decide

/-- C1 (amended): ImpulsePerturbation.perturb convolves the buffer with the
    peak-trimmed response via full linear convolution, but the truncation drops
    len(impulse_resp) trailing samples from a convolution holding
    len(data) + len(impulse_resp) - 1 samples, one more sample than the
    convolution tail: the perturbed buffer's length equals the input buffer's
    length minus one. -/
theorem impulsePerturb_length_amended (dataSamples impulse : List ℚ)
    (hd : dataSamples ≠ []) (hi : impulse ≠ [])
    (hlt : impulse.length < dataSamples.length) :
    (impulsePerturb dataSamples impulse).length = dataSamples.length - 1 := by
  have hmax := npArgmax_lt impulse hi
  have hdlen : 0 < dataSamples.length := List.length_pos.mpr hd
  unfold impulsePerturb pyNegSlice
  simp only [List.length_drop]
  rw [if_neg (by omega)]
  have hconv : (fullConvolve dataSamples (impulse.drop (npArgmax impulse))).length
      = dataSamples.length + (impulse.length - npArgmax impulse) - 1 := by
    simp [fullConvolve, List.length_drop]
  rw [List.length_take, hconv]
  omega

/-- C1 witness: the amended length law evaluated on a concrete 4-sample buffer
    and 1-sample impulse. -/
theorem impulsePerturb_length_witness :
    ([1, 2, 3, 4] : List ℚ) ≠ [] ∧ ([5] : List ℚ) ≠ [] ∧
    ([5] : List ℚ).length < ([1, 2, 3, 4] : List ℚ).length ∧
    (impulsePerturb [1, 2, 3, 4] [5]).length = ([1, 2, 3, 4] : List ℚ).length - 1 :=
  ⟨by decide, by decide, by decide,
    impulsePerturb_length_amended [1, 2, 3, 4] [5] (by decide) (by decide) (by decide)⟩

/-- Configuration a NoisePerturbation instance is constructed with
    (perturb.py lines 330-348): SNR range and gain cap. -/
structure NoiseConfig where
  minSnrDb : ℚ
  maxSnrDb : ℚ
  maxGainDb : ℚ
  deriving DecidableEq

/-- Guard shared by perturb_with_point_noise (line 365) and
    perturb_with_input_noise (line 396): Python evaluates
    `if not data_rms: data_rms = data.rms_db`, so the buffer's rms is
    recomputed both when no data_rms was passed (None) and when the passed
    value is 0.0, which is falsy. -/
def effectiveDataRms (rmsDb : List ℚ → ℚ) (samples : List ℚ) :
    Option ℚ → ℚ
  | none => rmsDb samples
  | some x => if x = 0 then rmsDb samples else x

/-- NumPy slice assignment data[idx : idx + len(ns)] += ns: add ns element-wise
    into data starting at position idx. -/
def addAt : List ℚ → List ℚ → ℕ → List ℚ
  | [], _, _ => []
  | x :: xs, ns, 0 =>
    match ns with
    | [] => x :: xs
    | n :: ns2 => (x + n) :: addAt xs ns2 0
  | x :: xs, ns, i + 1 => x :: addAt xs ns i

/-- Random draws one call of perturb_with_input_noise makes: the SNR draw and
    the raw uniform(0, noise.duration - data.duration) draw for the segment
    start (negative when the noise is shorter; the code clamps it with max). -/
structure InputNoiseDraws where
  snrDb : ℚ
  startRaw : ℚ
  deriving DecidableEq

/-- Body of perturb_with_input_noise (perturb.py lines 399-413) after the
    data_rms guard, with the already-resolved rms value passed in:
    noise_gain_db = min(data_rms - noise.rms_db - snr_db, max_gain_db), a
    data-duration-long segment of the noise starting at
    max(0, uniform(0, noise.duration - data.duration)) is scaled by
    10 ** (noise_gain_db / 20) and added at offset 0. The decibel-to-linear
    map 10 ** (x / 20) lives outside the rationals and is passed in as
    dbToLin. -/
def inputNoiseCore (rmsDb : List ℚ → ℚ) (dbToLin : ℚ → ℚ) (cfg : NoiseConfig)
    (d : InputNoiseDraws) (data noise : AudioData) (dataRmsV : ℚ) : AudioData :=
  let noiseGainDb := min (dataRmsV - rmsDb noise.samples - d.snrDb) cfg.maxGainDb
  let startTime := max 0 d.startRaw
  let startSample := (pyRound (startTime * (noise.sampleRate : ℚ))).toNat
  let endSample :=
    (pyRound (min noise.duration (startTime + data.duration) * (noise.sampleRate : ℚ))).toNat
  let noiseSamples :=
    ((noise.samples.take endSample).drop startSample).map (fun x => x * dbToLin noiseGainDb)
  { data with samples := addAt data.samples noiseSamples 0 }

/-- NoisePerturbation.perturb_with_input_noise (perturb.py lines 393-413):
    the data_rms argument defaults to None and is replaced by the buffer's rms
    whenever it is falsy, then the mixing body runs. -/
def perturb_with_input_noise (rmsDb : List ℚ → ℚ) (dbToLin : ℚ → ℚ)
    (cfg : NoiseConfig) (d : InputNoiseDraws) (data noise : AudioData)
    (dataRms : Option ℚ) : AudioData :=
  inputNoiseCore rmsDb dbToLin cfg d data noise
    (effectiveDataRms rmsDb data.samples dataRms)

/-- Random draws one call of perturb_with_point_noise makes: the SNR draw, the
    number of additions drawn by randint(1, max_additions), and per addition
    the duration draw, segment start draw, and target offset draw. -/
structure PointNoiseDraws where
  snrDb : ℚ
  nAdditions : ℕ
  durs : ℕ → ℚ
  starts : ℕ → ℚ
  idxs : ℕ → ℕ

/-- One iteration of the addition loop of perturb_with_point_noise
    (perturb.py lines 375-391): slice noise at the drawn start for the drawn
    duration, scale by 10 ** (noise_gain_db / 20), clip from the front when
    longer than the target, and add at the drawn target offset. -/
def pointNoiseAddOne (dbToLin : ℚ → ℚ) (noise : AudioData) (noiseGainDb : ℚ)
    (dur startTime : ℚ) (idx : ℕ) (cur : List ℚ) : List ℚ :=
  let startSample := (pyRound (startTime * (noise.sampleRate : ℚ))).toNat
  let endSample :=
    (pyRound (min noise.duration (startTime + dur) * (noise.sampleRate : ℚ))).toNat
  let noiseSamples :=
    ((noise.samples.take endSample).drop startSample).map (fun x => x * dbToLin noiseGainDb)
  let noiseSamples2 :=
    if cur.length < noiseSamples.length then noiseSamples.take cur.length else noiseSamples
  addAt cur noiseSamples2 idx

/-- Body of perturb_with_point_noise (perturb.py lines 370-391) after the
    data_rms guard: one shared noise_gain_db, then n_additions independent
    noise injections folded over the buffer. The max_noise_dur and
    max_additions arguments only bound the ranges the draws are taken from. -/
def pointNoiseCore (rmsDb : List ℚ → ℚ) (dbToLin : ℚ → ℚ) (cfg : NoiseConfig)
    (d : PointNoiseDraws) (data noise : AudioData) (dataRmsV : ℚ)
    (maxNoiseDur : ℚ) (maxAdditions : ℕ) : AudioData :=
  let noiseGainDb := min (dataRmsV - rmsDb noise.samples - d.snrDb) cfg.maxGainDb
  { data with
    samples :=
      (List.range d.nAdditions).foldl
        (fun cur i => pointNoiseAddOne dbToLin noise noiseGainDb (d.durs i) (d.starts i)
          (d.idxs i) cur)
        data.samples }

/-- NoisePerturbation.perturb_with_point_noise (perturb.py lines 363-391):
    the data_rms argument defaults to None and is replaced by the buffer's rms
    whenever it is falsy, then the injection loop runs. -/
def perturb_with_point_noise (rmsDb : List ℚ → ℚ) (dbToLin : ℚ → ℚ)
    (cfg : NoiseConfig) (d : PointNoiseDraws) (data noise : AudioData)
    (dataRms : Option ℚ) (maxNoiseDur : ℚ) (maxAdditions : ℕ) : AudioData :=
  pointNoiseCore rmsDb dbToLin cfg d data noise
    (effectiveDataRms rmsDb data.samples dataRms) maxNoiseDur maxAdditions

/-- C9 (confirmed): in perturb_with_input_noise and perturb_with_point_noise a
    caller-supplied data_rms of 0.0 is treated exactly like an absent one: the
    rms is recomputed from the target buffer, because the guard tests Python
    truthiness rather than presence; any non-zero supplied data_rms is used as
    given. -/
theorem noiseRms_guard_truthiness (rmsDb : List ℚ → ℚ) (dbToLin : ℚ → ℚ)
    (cfg : NoiseConfig) (din : InputNoiseDraws) (dpt : PointNoiseDraws)
    (data noise : AudioData) (maxNoiseDur : ℚ) (maxAdditions : ℕ)
    (x : ℚ) (hx : x ≠ 0) :
    perturb_with_input_noise rmsDb dbToLin cfg din data noise (some 0) =
      perturb_with_input_noise rmsDb dbToLin cfg din data noise none ∧
    perturb_with_point_noise rmsDb dbToLin cfg dpt data noise (some 0)
        maxNoiseDur maxAdditions =
      perturb_with_point_noise rmsDb dbToLin cfg dpt data noise none
        maxNoiseDur maxAdditions ∧
    effectiveDataRms rmsDb data.samples (some x) = x ∧
    effectiveDataRms rmsDb data.samples (some 0) = rmsDb data.samples := by
  refine ⟨?_, ?_, ?_, ?_⟩ <;>
    simp [perturb_with_input_noise, perturb_with_point_noise, effectiveDataRms, hx]

/-- C9 witness: the truthiness guard law evaluated at concrete buffers, draws
    and a non-zero supplied rms of 5. -/
theorem noiseRms_guard_witness :
    (5 : ℚ) ≠ 0 ∧
    (perturb_with_input_noise (fun s => s.headD 0) (fun q => 1 + q) ⟨0, 0, 300⟩
        ⟨0, 0⟩ ⟨[1], 1⟩ ⟨[1], 1⟩ (some 0) =
      perturb_with_input_noise (fun s => s.headD 0) (fun q => 1 + q) ⟨0, 0, 300⟩
        ⟨0, 0⟩ ⟨[1], 1⟩ ⟨[1], 1⟩ none ∧
    perturb_with_point_noise (fun s => s.headD 0) (fun q => 1 + q) ⟨0, 0, 300⟩
        ⟨0, 1, fun _ => 1, fun _ => 0, fun _ => 0⟩ ⟨[1], 1⟩ ⟨[1], 1⟩ (some 0) 5 1 =
      perturb_with_point_noise (fun s => s.headD 0) (fun q => 1 + q) ⟨0, 0, 300⟩
        ⟨0, 1, fun _ => 1, fun _ => 0, fun _ => 0⟩ ⟨[1], 1⟩ ⟨[1], 1⟩ none 5 1 ∧
    effectiveDataRms (fun s => s.headD 0) ([1] : List ℚ) (some 5) = 5 ∧
    effectiveDataRms (fun s => s.headD 0) ([1] : List ℚ) (some 0) =
      (fun (s : List ℚ) => s.headD 0) [1]) :=
  ⟨by decide,
    noiseRms_guard_truthiness (fun s => s.headD 0) (fun q => 1 + q) ⟨0, 0, 300⟩
      ⟨0, 0⟩ ⟨0, 1, fun _ => 1, fun _ => 0, fun _ => 0⟩ ⟨[1], 1⟩ ⟨[1], 1⟩ 5 1 5
      (by decide)⟩

/-- Draws and fetched auxiliary audio for one call of
    RirAndNoisePerturbation.perturb: the impulse the rir perturber draws for
    the target, the foreground noise sample, the impulse drawn for that noise
    when apply_noise_rir is set, the point-noise draws for the foreground mix,
    and the background noise sample with its input-noise draws. -/
structure RirNoiseDraws where
  impulse : List ℚ
  fgNoise : AudioData
  noiseImpulse : List ℚ
  fgDraws : PointNoiseDraws
  bgNoise : AudioData
  bgDraws : InputNoiseDraws

/-- RirAndNoisePerturbation.perturb (perturb.py lines 315-327): (1) convolve
    the target with the rir impulse, (2) read data_rms = data.rms_db from the
    buffer the reverb just modified, (3) fetch one foreground noise sample and,
    when apply_noise_rir is set, convolve it with an impulse, (4) mix it via
    perturb_with_point_noise passing data_rms, (5) when a background perturber
    is configured, mix a second additive-noise layer via its input-mode perturb
    passing the same data_rms. -/
def rirAndNoisePerturb (rmsDb : List ℚ → ℚ) (dbToLin : ℚ → ℚ)
    (fgCfg : NoiseConfig) (maxDuration : ℚ) (maxAdditions : ℕ)
    (applyNoiseRir : Bool) (bgCfg : Option NoiseConfig)
    (d : RirNoiseDraws) (data : AudioData) : AudioData :=
  let data1 : AudioData := { data with samples := impulsePerturb data.samples d.impulse }
  let dataRms := rmsDb data1.samples
  let noise :=
    if applyNoiseRir then
      { d.fgNoise with samples := impulsePerturb d.fgNoise.samples d.noiseImpulse }
    else d.fgNoise
  let data2 := perturb_with_point_noise rmsDb dbToLin fgCfg d.fgDraws data1 noise
    (some dataRms) maxDuration maxAdditions
  match bgCfg with
  | some cfg =>
    perturb_with_input_noise rmsDb dbToLin cfg d.bgDraws data2 d.bgNoise (some dataRms)
  | none => data2

/-- Written from the claim wording of C3: the same composite, except that the
    RMS reference handed to the foreground point-mode mix and to the background
    input-mode mix is the RMS of the buffer BEFORE the reverb of step (1)
    modified it. -/
def rirAndNoisePerturbClaimed (rmsDb : List ℚ → ℚ) (dbToLin : ℚ → ℚ)
    (fgCfg : NoiseConfig) (maxDuration : ℚ) (maxAdditions : ℕ)
    (applyNoiseRir : Bool) (bgCfg : Option NoiseConfig)
    (d : RirNoiseDraws) (data : AudioData) : AudioData :=
  let dataRms := rmsDb data.samples
  let data1 : AudioData := { data with samples := impulsePerturb data.samples d.impulse }
  let noise :=
    if applyNoiseRir then
      { d.fgNoise with samples := impulsePerturb d.fgNoise.samples d.noiseImpulse }
    else d.fgNoise
  let data2 := perturb_with_point_noise rmsDb dbToLin fgCfg d.fgDraws data1 noise
    (some dataRms) maxDuration maxAdditions
  match bgCfg with
  | some cfg =>
    perturb_with_input_noise rmsDb dbToLin cfg d.bgDraws data2 d.bgNoise (some dataRms)
  | none => data2

/-- Written from the spec wording amended for C3: fixed step order (1) reverb
    the target, (2) fetch one foreground noise sample, optionally reverberated,
    (3) point-mode mix of that noise, (4) optional background input-mode mix,
    where the RMS reference for the SNR solves of steps (3) and (4) is the
    target's POST-reverb, pre-mix RMS, read after step (1) modified the
    buffer. -/
def rirAndNoisePerturbPostRms (rmsDb : List ℚ → ℚ) (dbToLin : ℚ → ℚ)
    (fgCfg : NoiseConfig) (maxDuration : ℚ) (maxAdditions : ℕ)
    (applyNoiseRir : Bool) (bgCfg : Option NoiseConfig)
    (d : RirNoiseDraws) (data : AudioData) : AudioData :=
  let reverbed : AudioData := { data with samples := impulsePerturb data.samples d.impulse }
  let referenceRms := rmsDb reverbed.samples
  let fg :=
    if applyNoiseRir then
      { d.fgNoise with samples := impulsePerturb d.fgNoise.samples d.noiseImpulse }
    else d.fgNoise
  let mixed := perturb_with_point_noise rmsDb dbToLin fgCfg d.fgDraws reverbed fg
    (some referenceRms) maxDuration maxAdditions
  match bgCfg with
  | some cfg =>
    perturb_with_input_noise rmsDb dbToLin cfg d.bgDraws mixed d.bgNoise
      (some referenceRms)
  | none => mixed

/-- C3 counterexample: a concrete run on a 2-sample buffer where the reverb
    changes the rms, showing the composite's output differs from the output the
    claim's pre-reverb RMS reference would produce: the code does not use the
    pre-reverb RMS. -/
theorem rirAndNoise_preReverbRms_counterexample :
    rirAndNoisePerturb (fun s => s.headD 0) (fun q => 1 + q) ⟨0, 0, 300⟩ 5 1
        false none
        ⟨[2], ⟨[1], 1⟩, [], ⟨0, 1, fun _ => 1, fun _ => 0, fun _ => 0⟩, ⟨[0], 1⟩, ⟨0, 0⟩⟩
        ⟨[1, 1], 1⟩ ≠
      rirAndNoisePerturbClaimed (fun s => s.headD 0) (fun q => 1 + q) ⟨0, 0, 300⟩ 5 1
        false none
        ⟨[2], ⟨[1], 1⟩, [], ⟨0, 1, fun _ => 1, fun _ => 0, fun _ => 0⟩, ⟨[0], 1⟩, ⟨0, 0⟩⟩
        ⟨[1, 1], 1⟩ := by
  norm_num [rirAndNoisePerturb, rirAndNoisePerturbClaimed, perturb_with_point_noise,
    pointNoiseCore, pointNoiseAddOne, perturb_with_input_noise, inputNoiseCore,
    effectiveDataRms, impulsePerturb, fullConvolve, convCoeff, pyNegSlice, npArgmax,
    npArgmaxAux, pyRound, addAt, AudioData.duration, min_def, max_def,
    List.range_succ, AudioData.mk.injEq]

/-- C3 (amended): RirAndNoisePerturbation.perturb applies its steps in the
    fixed order (1) impulse-response convolution of the target, (2) fetch one
    foreground noise sample, optionally convolved with an impulse response,
    (3) point-mode additive mix of that noise, (4) optional background additive
    mix, and the RMS reference used for the SNR-gain solve in steps (3) and (4)
    is the target's post-reverb, pre-mix RMS: the RMS of the buffer after step
    (1) modified it and before any noise was added. -/
theorem rirAndNoise_rms_amended (rmsDb : List ℚ → ℚ) (dbToLin : ℚ → ℚ)
    (fgCfg : NoiseConfig) (maxDuration : ℚ) (maxAdditions : ℕ)
    (applyNoiseRir : Bool) (bgCfg : Option NoiseConfig)
    (d : RirNoiseDraws) (data : AudioData) :
    rirAndNoisePerturb rmsDb dbToLin fgCfg maxDuration maxAdditions
        applyNoiseRir bgCfg d data =
      rirAndNoisePerturbPostRms rmsDb dbToLin fgCfg maxDuration maxAdditions
        applyNoiseRir bgCfg d data := by
  rfl

/-- np.linspace(lo, hi, n, endpoint=True): n evenly spaced values from lo to
    hi, both endpoints included; a single requested value gives just lo. -/
def npLinspace (lo hi : ℚ) (n : ℕ) : List ℚ :=
  if n = 1 then [lo]
  else (List.range n).map (fun i => lo + (hi - lo) * (i : ℚ) / ((n : ℚ) - 1))

/-- State a successfully constructed SpeedPerturbation holds (perturb.py lines
    92-99). The rates field is an Option because line 96 assigns the _rates
    attribute only when num_rates > 0: none models the attribute never having
    been set. -/
structure SpeedPerturbationState where
  sr : ℚ
  minRate : ℚ
  maxRate : ℚ
  numRates : ℤ
  rates : Option (List ℚ)
  resType : String
  deriving DecidableEq

/-- SpeedPerturbation.__init__ (perturb.py lines 85-99): compute
    min_rate = min(min_speed_rate, max_speed_rate); raise when min_rate < 0.0
    (note the message claims the modifier must be greater than 0 while the test
    lets 0 through); raise when resample_type is not one of kaiser_best,
    kaiser_fast, fft, scipy; otherwise store the configuration, discretizing
    the rate range only when num_rates > 0. -/
def SpeedPerturbation.init (sr minSpeedRate maxSpeedRate : ℚ) (numRates : ℤ)
    (resampleType : String) : Except String SpeedPerturbationState :=
  if min minSpeedRate maxSpeedRate < 0 then
    Except.error "Minimum sampling rate modifier must be greater than 0."
  else if ¬ (resampleType = "kaiser_best" ∨ resampleType = "kaiser_fast" ∨
      resampleType = "fft" ∨ resampleType = "scipy") then
    Except.error "Supported resample_type values are kaiser_best, kaiser_fast, fft, scipy."
  else
    Except.ok
      { sr := sr, minRate := minSpeedRate, maxRate := maxSpeedRate,
        numRates := numRates,
        rates :=
          if numRates > 0 then some (npLinspace minSpeedRate maxSpeedRate numRates.toNat)
          else none,
        resType := resampleType }

/-- Rate selection opening SpeedPerturbation.perturb (perturb.py lines
    106-109) and, with identical text, TimeStretchPerturbation.perturb (lines
    179-182): when num_rates < 0 return the uniform continuous draw, otherwise
    return the uniformly chosen element of self._rates; reading rates = none
    is the AttributeError the Python code raises when the attribute was never
    assigned. The uniform draw and the choice index are the oracle inputs. -/
def selectSpeedRate (numRates : ℤ) (rates : Option (List ℚ))
    (uniformDraw : ℚ) (choiceIdx : ℕ) : Except String ℚ :=
  if numRates < 0 then Except.ok uniformDraw
  else
    match rates with
    | none => Except.error "AttributeError: no attribute rates"
    | some rs =>
      if rs.isEmpty then Except.error "choice from an empty sequence"
      else Except.ok (rs.getD (choiceIdx % rs.length) 0)

/-- C4 counterexample: the constructor accepts min_rate = 0 (with 0 < max_rate
    and a valid resample type) and accepts min_rate = 2 > 1 = max_rate, even
    though the claim says both must raise a configuration error. -/
theorem speedInit_validation_counterexample :
    (SpeedPerturbation.init 16000 0 (11/10) 5 "fft").toOption.isSome = true ∧
    (SpeedPerturbation.init 16000 2 1 5 "fft").toOption.isSome = true := by
  constructor <;> norm_num [SpeedPerturbation.init, min_def, Except.toOption]

/-- C4 (amended): the SpeedPerturbation constructor succeeds exactly when
    min(min_rate, max_rate) is not negative and resample_type belongs to the
    fixed set kaiser_best, kaiser_fast, fft, scipy; it raises a ValueError
    otherwise and never coerces the arguments. In particular min_rate = 0 and
    min_rate > max_rate ≥ 0 are accepted: the ordering of the two rates is not
    validated, only the smaller of them is compared against zero. -/
theorem speedInit_ok_iff (sr minR maxR : ℚ) (nr : ℤ) (rt : String) :
    (∃ st, SpeedPerturbation.init sr minR maxR nr rt = Except.ok st) ↔
      (0 ≤ min minR maxR ∧ (rt = "kaiser_best" ∨ rt = "kaiser_fast" ∨
        rt = "fft" ∨ rt = "scipy")) := by
  unfold SpeedPerturbation.init
  by_cases h1 : min minR maxR < 0
  · rw [if_pos h1]
    constructor
    · rintro ⟨st, hst⟩
      cases hst
    · rintro ⟨hle, -⟩
      exact absurd h1 (not_lt.mpr hle)
  · rw [if_neg h1]
    by_cases h2 : rt = "kaiser_best" ∨ rt = "kaiser_fast" ∨ rt = "fft" ∨ rt = "scipy"
    · rw [if_neg (not_not.mpr h2)]
      constructor
      · intro _
        exact ⟨not_lt.mp h1, h2⟩
      · intro _
        exact ⟨_, rfl⟩
    · rw [if_pos h2]
      constructor
      · rintro ⟨st, hst⟩
        cases hst
      · rintro ⟨-, hP⟩
        exact (h2 hP).elim

/-- C5 theorem for the code bug: constructing a SpeedPerturbation with
    num_rates = 0 succeeds, but the rate selection of every subsequent perturb
    call fails: num_rates < 0 is false so the discrete branch runs, and it
    reads the rates attribute that only num_rates > 0 would have assigned.
    With num_rates = -1 the same draw succeeds uniformly, as documented. -/
theorem speedSelect_numRatesZero_bug :
    (SpeedPerturbation.init 16000 (9/10) (11/10) 0 "fft").toOption.map
        (fun st => selectSpeedRate st.numRates st.rates 1 0) =
      some (Except.error "AttributeError: no attribute rates") ∧
    (SpeedPerturbation.init 16000 (9/10) (11/10) (-1) "fft").toOption.map
        (fun st => selectSpeedRate st.numRates st.rates 1 0) =
      some (Except.ok 1) := by
  constructor <;>
    norm_num [SpeedPerturbation.init, selectSpeedRate, min_def, Except.toOption]

/-- Possible results of np.random.RandomState.randint(lo, hi) as called at
    perturb.py line 429: numpy samples integers from lo inclusive up to hi
    EXCLUSIVE. -/
def npRandintRange (lo hi : ℤ) : List ℤ :=
  (List.range (hi - lo).toNat).map (fun i : ℕ => lo + (i : ℤ))

/-- WhiteNoisePerturbation.perturb (perturb.py lines 428-431) with the level
    draw and the per-sample standard-normal draws passed as oracles: a noise
    signal of one gaussian draw per sample, scaled by
    10 ** (noise_level_db / 20) (the abstract dbToLin argument), is added to
    the buffer element-wise. -/
def whiteNoisePerturb (dbToLin : ℤ → ℚ) (noiseLevelDb : ℤ) (gauss : ℕ → ℚ)
    (samples : List ℚ) : List ℚ :=
  List.zipWith (fun s g => s + g * dbToLin noiseLevelDb) samples
    ((List.range samples.length).map gauss)

theorem whiteNoisePerturb_cons (dbToLin : ℤ → ℚ) (l : ℤ) (gauss : ℕ → ℚ)
    (x : ℚ) (xs : List ℚ) :
    whiteNoisePerturb dbToLin l gauss (x :: xs) =
      (x + gauss 0 * dbToLin l) ::
        whiteNoisePerturb dbToLin l (fun j => gauss (j + 1)) xs := by
  simp [whiteNoisePerturb, List.range_succ_eq_map, List.map_map,
    Function.comp_def, Nat.succ_eq_add_one]

theorem whiteNoisePerturb_getD (dbToLin : ℤ → ℚ) (l : ℤ) :
    ∀ (samples : List ℚ) (gauss : ℕ → ℚ) (i : ℕ), i < samples.length →
      (whiteNoisePerturb dbToLin l gauss samples).getD i 0 =
        samples.getD i 0 + gauss i * dbToLin l := by
  intro samples
  induction samples with
  | nil =>
    intro gauss i hlen
    simp at hlen
  | cons x xs ih =>
    intro gauss i hlen
    rw [whiteNoisePerturb_cons]
    cases i with
    | zero => simp
    | succ j =>
      simp only [List.getD_cons_succ]
      exact ih (fun k => gauss (k + 1)) j (by simpa using hlen)

/-- C6 counterexample: with the default bounds min_level = -90 and
    max_level = -46, the value -46 = max_level is not a possible draw of
    np.random.RandomState.randint(-90, -46): the upper bound is not inclusive
    as the claim states. -/
theorem whiteNoise_maxLevel_counterexample :
    (-46 : ℤ) ∉ npRandintRange (-90) (-46) := by
  decide

/-- C6 (amended): each WhiteNoisePerturbation.perturb call draws its integer
    dB level uniformly from the half-open range [min_level, max_level): every
    integer at least min_level and strictly below max_level is a possible
    draw, while max_level itself is not, because numpy randint excludes its
    upper bound; the call then adds an independent gaussian draw scaled by
    10 ** (level / 20) to every sample, preserving the buffer length. -/
theorem whiteNoise_level_amended (lo hi l : ℤ) (dbToLin : ℤ → ℚ)
    (gauss : ℕ → ℚ) (samples : List ℚ) :
    (l ∈ npRandintRange lo hi ↔ lo ≤ l ∧ l < hi) ∧
    (whiteNoisePerturb dbToLin l gauss samples).length = samples.length ∧
    (∀ i, i < samples.length →
      (whiteNoisePerturb dbToLin l gauss samples).getD i 0 =
        samples.getD i 0 + gauss i * dbToLin l) := by
  refine ⟨?_, ?_, whiteNoisePerturb_getD dbToLin l samples gauss⟩
  · constructor
    · intro hmem
      unfold npRandintRange at hmem
      obtain ⟨a, ha, rfl⟩ := List.mem_map.mp hmem
      rw [List.mem_range] at ha
      omega
    · intro hb
      unfold npRandintRange
      refine List.mem_map.mpr ⟨(l - lo).toNat, ?_, by omega⟩
      rw [List.mem_range]
      omega
  · simp [whiteNoisePerturb]

/-- C6 witness: the amended white-noise law applied at levels drawn from
    [-90, -46) on a concrete 2-sample buffer, reading back sample 0. -/
theorem whiteNoise_level_witness :
    ((-90 : ℤ) ≤ -90 ∧ (-90 : ℤ) < -46) ∧
    (0 : ℕ) < ([3, 4] : List ℚ).length ∧
    (whiteNoisePerturb (fun _ => 1) (-90) (fun _ => 2) [3, 4]).getD 0 0 =
      ([3, 4] : List ℚ).getD 0 0 + 2 * 1 :=
  ⟨by decide, by decide, by
    have h := (whiteNoise_level_amended (-90) (-46) (-90) (fun _ => 1)
      (fun _ => 2) [3, 4]).2.2 0 (by decide)
    simpa using h⟩

/-- Iterator state of AugmentationDataset (perturb.py lines 527-530): dataset
    is the list of filtered items one full pass over the tarred shards yields
    (self.audio_dataset), remaining is the not-yet-consumed tail of the
    current pass (the state of self.audio_iter). -/
structure AugIterState (α : Type) where
  dataset : List α
  remaining : List α
  deriving DecidableEq

/-- One draw of AugmentationDataset.__iter__ (perturb.py lines 558-573): try
    next(self.audio_iter); on StopIteration re-create the iterator from
    audio_dataset and take its first element — that second next raises out of
    the generator when the dataset itself is empty, the error result here. -/
def augNext {α : Type} (s : AugIterState α) : Except Unit (α × AugIterState α) :=
  match s.remaining with
  | x :: rest => Except.ok (x, { s with remaining := rest })
  | [] =>
    match s.dataset with
    | y :: rest => Except.ok (y, { s with remaining := rest })
    | [] => Except.error ()

/-- n successive draws from the infinite iterator, collecting the yielded
    items; an error anywhere aborts the whole run. -/
def augIterate {α : Type} (s : AugIterState α) : ℕ → Except Unit (List α × AugIterState α)
  | 0 => Except.ok ([], s)
  | n + 1 =>
    match augNext s with
    | Except.error e => Except.error e
    | Except.ok (x, s2) =>
      match augIterate s2 n with
      | Except.error e => Except.error e
      | Except.ok (xs, s3) => Except.ok (x :: xs, s3)

theorem augNext_ok {α : Type} (s : AugIterState α) (h : s.dataset ≠ []) :
    ∃ x s2, augNext s = Except.ok (x, s2) ∧ s2.dataset = s.dataset := by
  rcases s with ⟨ds0, rem⟩
  cases rem with
  | cons x rest => exact ⟨x, _, rfl, rfl⟩
  | nil =>
    cases hds : ds0 with
    | nil => exact absurd hds h
    | cons y rest =>
      subst hds
      exact ⟨y, _, rfl, rfl⟩

/-- C7 (confirmed): for a sharded stream whose filtered archive pass is
    nonempty, iterating any number of times from any iterator position never
    surfaces the end-of-sequence signal to the consumer, and a draw made in
    the exhausted state silently restarts the pass and yields its first
    element. -/
theorem augIterate_never_ends {α : Type} (ds : List α) (h : ds ≠ []) :
    (∀ rem n, (augIterate (⟨ds, rem⟩ : AugIterState α) n).toOption.isSome = true) ∧
    (∀ y rest, ds = y :: rest →
      augNext (⟨ds, []⟩ : AugIterState α) = Except.ok (y, ⟨ds, rest⟩)) := by
  constructor
  · have key : ∀ n (s : AugIterState α), s.dataset = ds →
        (augIterate s n).toOption.isSome = true := by
      intro n
      induction n with
      | zero =>
        intro s _
        rfl
      | succ m ih =>
        intro s hs
        obtain ⟨x, s2, hnext, hds2⟩ := augNext_ok s (by rw [hs]; exact h)
        have hrec := ih s2 (hds2.trans hs)
        unfold augIterate
        rw [hnext]
        cases hit : augIterate s2 m with
        | error e =>
          rw [hit] at hrec
          simp [Except.toOption] at hrec
        | ok p =>
          rcases p with ⟨xs, s3⟩
          simp [hit, Except.toOption]
    intro rem n
    exact key n ⟨ds, rem⟩ rfl
  · intro y rest hds
    subst hds
    rfl

/-- C7 witness: the cycle law on the concrete two-element pass [1, 2]. -/
theorem augIterate_never_ends_witness :
    (∀ rem n, (augIterate (⟨[1, 2], rem⟩ : AugIterState ℕ) n).toOption.isSome = true) ∧
    (∀ y rest, [1, 2] = y :: rest →
      augNext (⟨[1, 2], []⟩ : AugIterState ℕ) = Except.ok (y, ⟨[1, 2], rest⟩)) :=
  augIterate_never_ends [1, 2] (by decide)

/-- State get_all_data operates on (perturb.py lines 525 and 530): the cached
    noise list and the remaining items of the current archive pass that
    next(self.audio_iter) still has to hand out. -/
structure GetAllDataState (α β : Type) where
  noiseList : List β
  remaining : List α

/-- Drain loop of get_all_data (perturb.py lines 580-593): call next() until
    StopIteration breaks the loop, decoding every item in order
    (AudioSegment.from_file, outside these sources, is the abstract decode
    argument) and appending it to the cache. -/
def drainIter {α β : Type} (decode : α → β) : List α → List β
  | [] => []
  | x :: rest => decode x :: drainIter decode rest

/-- AugmentationDataset.get_all_data (perturb.py lines 578-594): when the
    cached noise list is empty (the Python truthiness guard), drain the
    remaining pass into the cache, leaving the iterator exhausted; otherwise
    return the cache and touch nothing. Result: the returned list and the
    post-call state. -/
def get_all_data {α β : Type} (decode : α → β) (s : GetAllDataState α β) :
    List β × GetAllDataState α β :=
  if s.noiseList.isEmpty then
    (drainIter decode s.remaining, ⟨drainIter decode s.remaining, []⟩)
  else (s.noiseList, s)

/-- C8 (confirmed): on a fresh AugmentationDataset whose iterator holds one
    full finite archive pass, the first get_all_data call drains exactly that
    pass, decoding every item in order, and terminates; a second call returns
    the identical cached list — same length, same element order — and leaves
    the state unchanged; and when the pass was nonempty the second call takes
    the cached branch, so the stream is not re-drained. -/
theorem getAllData_idempotent {α β : Type} (decode : α → β) (pass : List α) :
    (get_all_data decode ⟨[], pass⟩).1 = drainIter decode pass ∧
    get_all_data decode (get_all_data decode ⟨[], pass⟩).2 =
      get_all_data decode ⟨[], pass⟩ ∧
    (pass ≠ [] →
      (get_all_data decode ⟨[], pass⟩).2.noiseList.isEmpty = false) := by
  refine ⟨rfl, ?_, ?_⟩
  · cases pass with
    | nil => rfl
    | cons x rest => simp [get_all_data, drainIter]
  · intro hp
    cases pass with
    | nil => exact absurd rfl hp
    | cons x rest => simp [get_all_data, drainIter]

/-- C8 witness: the idempotence law on the concrete pass [1, 2] with a
    concrete decoder. -/
theorem getAllData_idempotent_witness :
    ((get_all_data (fun n : ℕ => n + 1) ⟨[], [1, 2]⟩).1 =
      drainIter (fun n : ℕ => n + 1) [1, 2]) ∧
    (get_all_data (fun n : ℕ => n + 1)
        (get_all_data (fun n : ℕ => n + 1) ⟨[], [1, 2]⟩).2 =
      get_all_data (fun n : ℕ => n + 1) ⟨[], [1, 2]⟩) ∧
    ((get_all_data (fun n : ℕ => n + 1) ⟨[], [1, 2]⟩).2.noiseList.isEmpty = false) :=
  ⟨(getAllData_idempotent (fun n : ℕ => n + 1) [1, 2]).1,
    (getAllData_idempotent (fun n : ℕ => n + 1) [1, 2]).2.1,
    (getAllData_idempotent (fun n : ℕ => n + 1) [1, 2]).2.2 (by decide)⟩

/-- AudioAugmentor.perturb (perturb.py lines 460-464) over an abstract buffer
    type: for each (prob, p) pipeline entry in list order, one uniform draw in
    [0, 1) is compared strictly against prob, and p is applied to the current
    buffer exactly when the draw is below it; the n-th stage reads draw
    number n of the oracle. -/
def augmentorPerturb {β : Type} (draws : ℕ → ℚ) :
    List (ℚ × (β → β)) → ℕ → β → β
  | [], _, seg => seg
  | (prob, p) :: rest, n, seg =>
    augmentorPerturb draws rest (n + 1) (if draws n < prob then p seg else seg)

/-- C10 (confirmed): with every uniform draw in [0, 1), a pipeline stage with
    probability 0.0 is never invoked (no draw is below 0) and a stage with
    probability 1.0 is always invoked (every draw is below 1), and the
    pipeline applies its stages in list order to the same buffer: running a
    concatenated pipeline equals running the first part and feeding its
    result to the rest. -/
theorem augmentor_bernoulli_bounds {β : Type} (draws : ℕ → ℚ)
    (h : ∀ n, 0 ≤ draws n ∧ draws n < 1) (p : β → β)
    (rest : List (ℚ × (β → β))) (n : ℕ) (seg : β) :
    augmentorPerturb draws ((0, p) :: rest) n seg =
      augmentorPerturb draws rest (n + 1) seg ∧
    augmentorPerturb draws ((1, p) :: rest) n seg =
      augmentorPerturb draws rest (n + 1) (p seg) ∧
    (∀ (l1 l2 : List (ℚ × (β → β))) (m : ℕ) (s : β),
      augmentorPerturb draws (l1 ++ l2) m s =
        augmentorPerturb draws l2 (m + l1.length)
          (augmentorPerturb draws l1 m s)) := by
  refine ⟨?_, ?_, ?_⟩
  · simp [augmentorPerturb, not_lt.mpr (h n).1]
  · simp [augmentorPerturb, (h n).2]
  · intro l1
    induction l1 with
    | nil =>
      intro l2 m s
      simp [augmentorPerturb]
    | cons e tl ih =>
      intro l2 m s
      rcases e with ⟨prob, q⟩
      simp only [List.cons_append, augmentorPerturb, List.length_cons,
        List.append_eq]
      rw [ih]
      have harith : m + 1 + tl.length = m + (tl.length + 1) := by omega
      rw [harith]

/-- C10 witness: the Bernoulli boundary law on a concrete one-stage pipeline
    over natural-number buffers with all draws equal to one half. -/
theorem augmentor_bernoulli_witness :
    (augmentorPerturb (fun _ => (1 : ℚ)/2) (((0 : ℚ), Nat.succ) :: []) 0 5 =
      augmentorPerturb (fun _ => (1 : ℚ)/2) [] 1 5) ∧
    (augmentorPerturb (fun _ => (1 : ℚ)/2) (((1 : ℚ), Nat.succ) :: []) 0 5 =
      augmentorPerturb (fun _ => (1 : ℚ)/2) [] 1 (Nat.succ 5)) ∧
    (∀ (l1 l2 : List (ℚ × (ℕ → ℕ))) (m : ℕ) (s : ℕ),
      augmentorPerturb (fun _ => (1 : ℚ)/2) (l1 ++ l2) m s =
        augmentorPerturb (fun _ => (1 : ℚ)/2) l2 (m + l1.length)
          (augmentorPerturb (fun _ => (1 : ℚ)/2) l1 m s)) :=
  augmentor_bernoulli_bounds (fun _ => (1 : ℚ)/2)
    (fun _ => by constructor <;> norm_num) Nat.succ [] 0 5
